import Mathlib

/-!
Shallow embedding of `src/app.py` (Cakap Virtual Assistant, a Streamlit app
calling the Vertex AI Gemini API).  The deterministic core consists of three
functions:

* `get_gemini_response` — the response assembler: in non-streaming mode it
  returns the response's single text payload; in streaming mode it iterates
  the chunks, appending each chunk's text to an accumulator, substituting an
  empty string when reading the text raises `IndexError`, and finally joins
  the accumulator with `" ".join(...)`.
* `get_model_name` — strips `"publishers/google/models/"` from the model's
  internal name via Python `str.replace` and wraps the result in backticks.
* `get_storage_url` — rewrites a `gs://` URI to a public HTTP URL via
  `gcs_uri.split("gs://")[1]`; when the marker is absent the subscript
  raises `IndexError`.

Python `str.replace`, `str.split` and `str.join` are embedded on `List Char`
with their exact semantics (left-to-right non-overlapping scan); exceptions
are embedded with `Except`.
-/

/-- Python exception classes distinguished by the code: `IndexError` is the
class caught by the streaming loop; every other class is opaque. -/
inductive PyError where
  | indexError : PyError
  | other : String → PyError
deriving DecidableEq

/-- `isPre p s` decides whether `p` is a leading segment of `s`
(Python `s.startswith(p)` at a given scan position). -/
def isPre : List Char → List Char → Bool
  | [], _ => true
  | _ :: _, [] => false
  | a :: as, b :: bs => a = b && isPre as bs

/-- `containsSub p s` decides whether `p` occurs as a contiguous substring of
`s` (Python `p in s`). -/
def containsSub (p : List Char) : List Char → Bool
  | [] => isPre p []
  | c :: rest => isPre p (c :: rest) || containsSub p rest

/-- Worker for Python `str.replace`: scans left to right; a positive `k`
means `k` characters of an already-matched occurrence remain to be skipped. -/
def replAux (p r : List Char) : List Char → Nat → List Char
  | [], _ => []
  | c :: rest, 0 =>
    if isPre p (c :: rest) then r ++ replAux p r rest (p.length - 1)
    else c :: replAux p r rest 0
  | _ :: rest, k + 1 => replAux p r rest k

/-- Python `s.replace(p, r)` on character lists: replaces every
non-overlapping occurrence of `p`, scanning left to right. -/
def replaceAllL (p r s : List Char) : List Char :=
  replAux p r s 0

/-- Worker for Python `str.split`: `cur` accumulates the current field in
reverse; a positive `k` means `k` characters of a matched separator remain
to be skipped. -/
def splitAux (sep : List Char) : List Char → Nat → List Char → List (List Char)
  | [], _, cur => [cur.reverse]
  | c :: rest, 0, cur =>
    if isPre sep (c :: rest) then cur.reverse :: splitAux sep rest (sep.length - 1) []
    else splitAux sep rest 0 (c :: cur)
  | _ :: rest, k + 1, cur => splitAux sep rest k cur

/-- Python `s.split(sep)` (nonempty separator) on character lists. -/
def pySplitL (sep s : List Char) : List (List Char) :=
  splitAux sep s 0 []

/-- Python `s.replace(p, r)` on strings. -/
def pyReplace (s p r : String) : String :=
  ⟨replaceAllL p.data r.data s.data⟩

/-- Python `s.split(sep)` on strings (nonempty separator). -/
def pySplit (sep s : String) : List String :=
  (pySplitL sep.data s.data).map fun l => ⟨l⟩

/-- Python `sep.join(xs)`. -/
def pyJoin (sep : String) : List String → String
  | [] => ""
  | [x] => x
  | x :: xs => x ++ sep ++ pyJoin sep xs

/-- `containsSub` on strings (Python `p in s`). -/
def containsSubStr (p s : String) : Bool :=
  containsSub p.data s.data

/-- `p` has no proper nonempty border: no splitting index `d` makes the
suffix `p.drop d` coincide with the prefix of `p` of the same length.  Used
to rule out occurrences of a pattern that straddle a known occurrence. -/
def bordersFree (p : List Char) : Bool :=
  (List.range p.length).all fun d =>
    decide (d = 0 ∨ p.drop d ≠ p.take (p.length - d))

instance {ε α : Type} [DecidableEq ε] [DecidableEq α] : DecidableEq (Except ε α)
  | .ok x, .ok y => decidable_of_iff (x = y) (by simp)
  | .ok _, .error _ => .isFalse (by simp)
  | .error _, .ok _ => .isFalse (by simp)
  | .error e, .error f => decidable_of_iff (e = f) (by simp)

/-- One element of a streamed Gemini response; reading `.text` in the source
may raise (`IndexError` when the chunk carries no payload). -/
structure ResponseChunk where
  text : Except PyError String
deriving DecidableEq

/-- The provider's response object, as observed by `get_gemini_response`:
in non-streaming mode `.text` is the single resolved payload (reading it may
raise); in streaming mode iterating it yields the chunks in arrival order. -/
structure GeminiResponse where
  text : Except PyError String
  stream_chunks : List ResponseChunk
deriving DecidableEq

/-- A model handle; `model_name` embeds the SDK's `_model_name` field. -/
structure GenerativeModel where
  model_name : String
deriving DecidableEq

/-- The `for r in responses:` loop of `get_gemini_response`: `acc` is the
accumulated `final_response` list in reverse.  A chunk whose `.text` raises
`IndexError` contributes `""` and iteration continues; any other exception
propagates, aborting the iteration. -/
def assembleLoop : List ResponseChunk → List String → Except PyError (List String)
  | [], acc => .ok acc.reverse
  | c :: rest, acc =>
    match c.text with
    | .ok t => assembleLoop rest (t :: acc)
    | .error .indexError => assembleLoop rest ("" :: acc)
    | .error e => .error e

/-- `get_gemini_response` from `src/app.py`, lines 30–63, applied to the
provider's response object: non-streaming mode returns `responses.text`;
streaming mode runs the accumulation loop and joins with `" ".join(...)`. -/
def get_gemini_response (responses : GeminiResponse) (stream : Bool) :
    Except PyError String :=
  if !stream then responses.text
  else (assembleLoop responses.stream_chunks []).map (pyJoin " ")

/-- `get_model_name` from `src/app.py`, lines 66–71. -/
def get_model_name (model : GenerativeModel) : String :=
  "`" ++ pyReplace model.model_name "publishers/google/models/" "" ++ "`"

/-- `get_storage_url` from `src/app.py`, lines 74–76:
`"https://storage.googleapis.com/" + gcs_uri.split("gs://")[1]`; the
subscript `[1]` raises `IndexError` when the split yields a single field. -/
def get_storage_url (gcs_uri : String) : Except PyError String :=
  match (pySplit "gs://" gcs_uri).get? 1 with
  | some seg => .ok ("https://storage.googleapis.com/" ++ seg)
  | none => .error .indexError

/-- A chunk whose `.text` read does not abort the streaming loop: the read
succeeds or raises exactly `IndexError` (the one class the loop catches). -/
def recoverable (c : ResponseChunk) : Bool :=
  match c.text with
  | .error (.other _) => false
  | _ => true

/-! ## Scanning lemmas for the `replace`/`split` workers -/

theorem replAux_drop (p r : List Char) :
    ∀ (s : List Char) (k : Nat), replAux p r s k = replAux p r (s.drop k) 0 := by
  intro s
  induction s with
  | nil => intro k; simp [replAux]
  | cons c rest ih =>
    intro k
    cases k with
    | zero => simp
    | succ k =>
      show replAux p r rest k = replAux p r ((c :: rest).drop (k + 1)) 0
      rw [List.drop_succ_cons]
      exact ih k

theorem splitAux_drop (sep : List Char) :
    ∀ (s : List Char) (k : Nat) (cur : List Char),
      splitAux sep s k cur = splitAux sep (s.drop k) 0 cur := by
  intro s
  induction s with
  | nil => intro k cur; simp [splitAux]
  | cons c rest ih =>
    intro k cur
    cases k with
    | zero => simp
    | succ k =>
      show splitAux sep rest k cur = splitAux sep ((c :: rest).drop (k + 1)) 0 cur
      rw [List.drop_succ_cons]
      exact ih k cur

theorem isPre_self_append : ∀ (p t : List Char), isPre p (p ++ t) = true := by
  intro p t
  induction p with
  | nil => simp [isPre]
  | cons a as ih => simp [isPre, ih]

theorem eq_append_of_isPre : ∀ (p s : List Char), isPre p s = true → ∃ t, s = p ++ t := by
  intro p
  induction p with
  | nil => intro s _; exact ⟨s, rfl⟩
  | cons a as ih =>
    intro s h
    cases s with
    | nil => simp [isPre] at h
    | cons b bs =>
      simp only [isPre, Bool.and_eq_true, decide_eq_true_eq] at h
      obtain ⟨rfl, h2⟩ := h
      obtain ⟨t, rfl⟩ := ih bs h2
      exact ⟨t, rfl⟩

theorem replaceAllL_no_occ (p r : List Char) :
    ∀ s, containsSub p s = false → replaceAllL p r s = s := by
  intro s
  induction s with
  | nil => intro _; rfl
  | cons c rest ih =>
    intro h
    simp only [containsSub, Bool.or_eq_false_iff] at h
    obtain ⟨h1, h2⟩ := h
    show replAux p r (c :: rest) 0 = c :: rest
    simp only [replAux, h1, Bool.false_eq_true, if_false]
    exact congrArg (c :: ·) (ih h2)

theorem splitAux_no_occ (sep : List Char) :
    ∀ (s cur : List Char), containsSub sep s = false →
      splitAux sep s 0 cur = [cur.reverse ++ s] := by
  intro s
  induction s with
  | nil => intro cur _; simp [splitAux]
  | cons c rest ih =>
    intro cur h
    simp only [containsSub, Bool.or_eq_false_iff] at h
    obtain ⟨h1, h2⟩ := h
    show splitAux sep (c :: rest) 0 cur = [cur.reverse ++ c :: rest]
    simp only [splitAux, h1, Bool.false_eq_true, if_false]
    rw [ih (c :: cur) h2]
    simp

theorem splitAux_marker (a : Char) (as t cur : List Char) :
    splitAux (a :: as) (a :: (as ++ t)) 0 cur
      = cur.reverse :: splitAux (a :: as) t 0 [] := by
  have hp : isPre (a :: as) (a :: (as ++ t)) = true := isPre_self_append (a :: as) t
  simp only [splitAux, hp, if_true, List.length_cons, Nat.add_sub_cancel]
  rw [splitAux_drop, List.drop_left]

theorem replAux_marker (a : Char) (as r t : List Char) :
    replAux (a :: as) r (a :: (as ++ t)) 0 = r ++ replAux (a :: as) r t 0 := by
  have hp : isPre (a :: as) (a :: (as ++ t)) = true := isPre_self_append (a :: as) t
  simp only [replAux, hp, if_true, List.length_cons, Nat.add_sub_cancel]
  rw [replAux_drop, List.drop_left]

/-! ## Border reasoning: no occurrence of a border-free pattern can straddle
a known occurrence -/

theorem isPre_of_append_of_le (p u w : List Char) (h : isPre p (u ++ w) = true)
    (hl : p.length ≤ u.length) : isPre p u = true := by
  obtain ⟨t, ht⟩ := eq_append_of_isPre _ _ h
  have h1 : (u ++ w).take p.length = p := by
    rw [ht, List.take_append_eq_append_take, List.take_length p]
    simp
  rw [List.take_append_eq_append_take, Nat.sub_eq_zero_of_le hl,
    List.take_zero, List.append_nil] at h1
  have h2 : u = p ++ u.drop p.length := by
    conv_lhs => rw [← List.take_append_drop p.length u, h1]
  rw [h2]
  exact isPre_self_append ..

theorem bordersFree_spec (p : List Char) (hb : bordersFree p = true) (d : Nat)
    (hd0 : 0 < d) (hdl : d < p.length) : p.drop d ≠ p.take (p.length - d) := by
  have h := List.all_eq_true.mp hb d (List.mem_range.mpr hdl)
  rcases of_decide_eq_true h with h0 | hne
  · omega
  · exact hne

theorem no_straddle (p u w : List Char) (hb : bordersFree p = true)
    (hul : u ≠ []) (hlt : u.length < p.length) :
    isPre p (u ++ (p ++ w)) = false := by
  by_contra hc
  rw [Bool.not_eq_false] at hc
  obtain ⟨t, ht⟩ := eq_append_of_isPre _ _ hc
  have h1 : (u ++ (p ++ w)).take p.length = p := by
    rw [ht, List.take_append_eq_append_take, List.take_length p]
    simp
  rw [List.take_append_eq_append_take,
    List.take_of_length_le (Nat.le_of_lt hlt),
    List.take_append_eq_append_take,
    Nat.sub_eq_zero_of_le (Nat.sub_le p.length u.length),
    List.take_zero, List.append_nil] at h1
  have h2 := congrArg (List.drop u.length) h1
  rw [List.drop_left] at h2
  exact bordersFree_spec p hb u.length (List.length_pos.mpr hul) hlt h2.symm

theorem replace_skip (p r v : List Char) (hb : bordersFree p = true) :
    ∀ u, containsSub p u = false →
      replaceAllL p r (u ++ (p ++ v)) = u ++ (r ++ replaceAllL p r v) := by
  intro u
  induction u with
  | nil =>
    intro h
    cases p with
    | nil => simp [containsSub, isPre] at h
    | cons a as =>
      simp only [List.nil_append]
      exact replAux_marker a as r v
  | cons c u' ih =>
    intro h
    simp only [containsSub, Bool.or_eq_false_iff] at h
    obtain ⟨h1, h2⟩ := h
    have hnot : isPre p ((c :: u') ++ (p ++ v)) = false := by
      rcases Nat.lt_or_ge (c :: u').length p.length with hlt | hge
      · exact no_straddle p (c :: u') v hb (by simp) hlt
      · by_contra hc
        rw [Bool.not_eq_false] at hc
        have := isPre_of_append_of_le p (c :: u') (p ++ v) hc hge
        rw [h1] at this
        exact Bool.false_ne_true this
    have hnot' : isPre p (c :: (u' ++ (p ++ v))) = false := hnot
    show replAux p r (c :: (u' ++ (p ++ v))) 0 = c :: (u' ++ (r ++ replaceAllL p r v))
    simp only [replAux, hnot', Bool.false_eq_true, if_false]
    exact congrArg (c :: ·) (ih h2)

/-! ## Lemmas about the streaming accumulation loop -/

theorem assembleLoop_map_ok (ts : List String) :
    ∀ acc, assembleLoop (ts.map fun t => ⟨Except.ok t⟩) acc
      = .ok (acc.reverse ++ ts) := by
  induction ts with
  | nil => intro acc; simp [assembleLoop]
  | cons t ts ih =>
    intro acc
    show assembleLoop (ts.map fun t => ⟨Except.ok t⟩) (t :: acc) = _
    rw [ih (t :: acc)]
    simp

theorem assembleLoop_ok_append (ts : List String) :
    ∀ (more : List ResponseChunk) (acc : List String),
      assembleLoop ((ts.map fun t => ⟨Except.ok t⟩) ++ more) acc
        = assembleLoop more (ts.reverse ++ acc) := by
  induction ts with
  | nil => intro more acc; simp
  | cons t ts ih =>
    intro more acc
    show assembleLoop ((ts.map fun t => ⟨Except.ok t⟩) ++ more) (t :: acc) = _
    rw [ih more (t :: acc)]
    simp

theorem assembleLoop_fatal (msg : String) (rest : List ResponseChunk) :
    ∀ (pre : List ResponseChunk) (acc : List String),
      (∀ c ∈ pre, recoverable c = true) →
        assembleLoop (pre ++ ⟨Except.error (PyError.other msg)⟩ :: rest) acc
          = .error (PyError.other msg) := by
  intro pre
  induction pre with
  | nil => intro acc _; simp [assembleLoop]
  | cons c pre ih =>
    intro acc hpre
    have hc := hpre c (List.mem_cons_self ..)
    have hrest : ∀ x ∈ pre, recoverable x = true :=
      fun x hx => hpre x (List.mem_cons_of_mem _ hx)
    show assembleLoop (c :: (pre ++ _ :: rest)) acc = _
    cases htext : c.text with
    | ok t =>
      simp only [assembleLoop, htext]
      exact ih _ hrest
    | error e =>
      cases e with
      | indexError =>
        simp only [assembleLoop, htext]
        exact ih _ hrest
      | other m => simp [recoverable, htext] at hc

/-! ## Claims about the response assembler -/

/-- C1: for every streaming response whose chunks all carry a text payload,
`get_gemini_response` with `stream = true` returns the chunk texts joined by
a single space separator, in exactly arrival order, with no reordering and
no deduplication. -/
theorem gemini_stream_joins_in_order (nst : Except PyError String)
    (ts : List String) :
    get_gemini_response ⟨nst, ts.map fun t => ⟨Except.ok t⟩⟩ true
      = .ok (pyJoin " " ts) := by
  show (assembleLoop (ts.map fun t => ⟨Except.ok t⟩) []).map (pyJoin " ") = _
  rw [assembleLoop_map_ok ts []]
  rfl

/-- C2: a streaming chunk whose payload read fails with the out-of-range
condition does not abort assembly: an empty-string placeholder is appended
at its position, the remaining chunks are still consumed, and the joined
accumulation list keeps length `n`; in particular the chunks
`["Hello", <no-payload>, "world"]` assemble to `"Hello  world"` with two
spaces around the placeholder. -/
theorem gemini_stream_empty_placeholder :
    (∀ (nst : Except PyError String) (ts1 ts2 : List String),
      get_gemini_response
          ⟨nst, (ts1.map fun t => ⟨Except.ok t⟩)
            ++ ⟨Except.error PyError.indexError⟩ :: (ts2.map fun t => ⟨Except.ok t⟩)⟩
          true
        = .ok (pyJoin " " (ts1 ++ "" :: ts2)) ∧
      (ts1 ++ "" :: ts2).length = ts1.length + 1 + ts2.length) ∧
    get_gemini_response
        ⟨Except.ok "", [⟨Except.ok "Hello"⟩, ⟨Except.error PyError.indexError⟩,
          ⟨Except.ok "world"⟩]⟩ true
      = .ok "Hello  world" := by
  constructor
  · intro nst ts1 ts2
    constructor
    · show (assembleLoop _ []).map (pyJoin " ") = _
      rw [assembleLoop_ok_append ts1]
      show (assembleLoop (ts2.map fun t => ⟨Except.ok t⟩) ("" :: (ts1.reverse ++ []))).map
          (pyJoin " ") = _
      rw [assembleLoop_map_ok ts2]
      simp [Except.map]
    · simp
      omega
  · decide

/-- C3: in non-streaming mode (`stream = false`) with a present text payload
`P`, the assembler returns exactly `P`, with no transformation. -/
theorem gemini_nonstream_verbatim (P : String) (chunks : List ResponseChunk) :
    get_gemini_response ⟨Except.ok P, chunks⟩ false = .ok P := rfl

/-- C5: the streaming response with zero chunks assembles to the empty
string. -/
theorem gemini_stream_empty_returns_empty (nst : Except PyError String) :
    get_gemini_response ⟨nst, []⟩ true = .ok "" := rfl

/-- C6: the assembler is deterministic: two responses with structurally
identical payloads and chunk sequences yield identical results in either
mode — the output depends only on the chunk texts and their order. -/
theorem gemini_stream_deterministic (r1 r2 : GeminiResponse) (s : Bool)
    (ht : r1.text = r2.text) (hc : r1.stream_chunks = r2.stream_chunks) :
    get_gemini_response r1 s = get_gemini_response r2 s := by
  cases r1
  cases r2
  cases ht
  cases hc
  rfl

theorem gemini_stream_deterministic_witness :
    get_gemini_response ⟨Except.ok "p", [⟨Except.ok "a"⟩, ⟨Except.ok "b"⟩]⟩ true
      = get_gemini_response ⟨Except.ok "p", [⟨Except.ok "a"⟩, ⟨Except.ok "b"⟩]⟩ true :=
  gemini_stream_deterministic _ _ true rfl rfl

/-- C4: the per-chunk out-of-range case is the only locally recovered error:
a non-streaming response whose payload read fails propagates the failure
unchanged, and a streaming chunk failing with any class other than the
out-of-range condition propagates unchanged — regardless of how many chunks
follow, so iteration does not continue past the failing chunk. -/
theorem gemini_error_propagation :
    (∀ (e : PyError) (chunks : List ResponseChunk),
      get_gemini_response ⟨Except.error e, chunks⟩ false = .error e) ∧
    (∀ (nst : Except PyError String) (pre : List ResponseChunk) (msg : String)
        (rest : List ResponseChunk), (∀ c ∈ pre, recoverable c = true) →
      get_gemini_response
          ⟨nst, pre ++ ⟨Except.error (PyError.other msg)⟩ :: rest⟩ true
        = .error (PyError.other msg)) := by
  constructor
  · intro e chunks; rfl
  · intro nst pre msg rest hpre
    show (assembleLoop (pre ++ _ :: rest) []).map (pyJoin " ") = _
    rw [assembleLoop_fatal msg rest pre [] hpre]
    rfl

theorem gemini_error_propagation_witness :
    get_gemini_response
        ⟨Except.ok "x", [⟨Except.ok "a"⟩, ⟨Except.error (PyError.other "transport")⟩,
          ⟨Except.ok "b"⟩]⟩ true
      = .error (PyError.other "transport") :=
  gemini_error_propagation.2 (Except.ok "x") [⟨Except.ok "a"⟩] "transport"
    [⟨Except.ok "b"⟩] (by decide)

/-! ## String-level facts about the `gs://` split -/

theorem pySplit_marker_case (rest : String)
    (h : containsSubStr "gs://" rest = false) :
    pySplit "gs://" ("gs://" ++ rest) = ["", rest] := by
  show (splitAux "gs://".data ("gs://" ++ rest).data 0 []).map (fun l => String.mk l)
    = ["", rest]
  have e1 : ("gs://" ++ rest).data = 'g' :: (['s', ':', '/', '/'] ++ rest.data) := rfl
  have e2 : "gs://".data = 'g' :: ['s', ':', '/', '/'] := rfl
  rw [e1, e2, splitAux_marker, splitAux_no_occ _ rest.data [] h]
  rfl

theorem pySplit_no_marker (s : String)
    (h : containsSubStr "gs://" s = false) :
    pySplit "gs://" s = [s] := by
  show (splitAux "gs://".data s.data 0 []).map (fun l => String.mk l) = [s]
  rw [splitAux_no_occ _ s.data [] h]
  rfl

/-! ## Claims about the helper functions -/

/-- C7: a well-formed storage reference `gs://bucket/object-path` is turned
into the HTTP URL obtained by substituting the fixed public base for the
scheme marker; in particular `"gs://my-bucket/path/to/object.txt"` yields
`"https://storage.googleapis.com/my-bucket/path/to/object.txt"`. -/
theorem storage_url_rewrite :
    get_storage_url "gs://my-bucket/path/to/object.txt"
      = .ok "https://storage.googleapis.com/my-bucket/path/to/object.txt" ∧
    ∀ rest : String, containsSubStr "gs://" rest = false →
      get_storage_url ("gs://" ++ rest)
        = .ok ("https://storage.googleapis.com/" ++ rest) := by
  constructor
  · decide
  · intro rest h
    unfold get_storage_url
    rw [pySplit_marker_case rest h]
    rfl

theorem storage_url_rewrite_witness :
    get_storage_url ("gs://" ++ "bkt/obj.txt")
      = .ok ("https://storage.googleapis.com/" ++ "bkt/obj.txt") :=
  storage_url_rewrite.2 "bkt/obj.txt" (by decide)

/-- C8: on every input in which the scheme marker `"gs://"` is absent,
`get_storage_url` raises the out-of-range (malformed-input) error and
returns no URL string. -/
theorem storage_url_missing_marker (s : String)
    (h : containsSubStr "gs://" s = false) :
    get_storage_url s = .error PyError.indexError := by
  unfold get_storage_url
  rw [pySplit_no_marker s h]
  rfl

theorem storage_url_missing_marker_witness :
    get_storage_url "https://example.com/a" = .error PyError.indexError :=
  storage_url_missing_marker "https://example.com/a" (by decide)

/-- C9: `get_model_name` strips the provider path marker
`"publishers/google/models/"` from the handle's identifier and wraps the
result in backticks; an identifier in which the marker is absent is
returned unchanged (still backtick-wrapped), with no failure mode; in
particular `"publishers/google/models/gemini-1.5-pro"` yields
`` `gemini-1.5-pro` ``. -/
theorem model_name_strip_and_wrap :
    get_model_name ⟨"publishers/google/models/gemini-1.5-pro"⟩ = "`gemini-1.5-pro`" ∧
    ∀ s : String, containsSubStr "publishers/google/models/" s = false →
      get_model_name ⟨s⟩ = "`" ++ s ++ "`" := by
  constructor
  · decide
  · intro s h
    show "`" ++ pyReplace s "publishers/google/models/" "" ++ "`" = "`" ++ s ++ "`"
    have hr : pyReplace s "publishers/google/models/" "" = s := by
      show String.mk (replaceAllL "publishers/google/models/".data "".data s.data) = s
      rw [replaceAllL_no_occ _ _ s.data h]
    rw [hr]

theorem model_name_strip_and_wrap_witness :
    get_model_name ⟨"gemini-1.5-flash"⟩ = "`" ++ "gemini-1.5-flash" ++ "`" :=
  model_name_strip_and_wrap.2 "gemini-1.5-flash" (by decide)

/-- C10: `get_model_name` removes occurrences of
`"publishers/google/models/"` anywhere in the identifier, not only a
leading one: whenever the identifier is `u ++ marker ++ v` with the marker
not occurring in `u`, the marker occurrence after `u` is also deleted and
the remainder `v` is processed the same way. -/
theorem model_name_removes_all_occurrences (u v : String)
    (h : containsSubStr "publishers/google/models/" u = false) :
    get_model_name ⟨u ++ "publishers/google/models/" ++ v⟩
      = "`" ++ (u ++ pyReplace v "publishers/google/models/" "") ++ "`" := by
  have hb : bordersFree "publishers/google/models/".data = true := by decide
  have key := replace_skip "publishers/google/models/".data "".data v.data hb u.data h
  have hr : pyReplace (u ++ "publishers/google/models/" ++ v)
      "publishers/google/models/" ""
      = u ++ pyReplace v "publishers/google/models/" "" := by
    show String.mk (replaceAllL "publishers/google/models/".data "".data
      ((u ++ "publishers/google/models/" ++ v).data)) = _
    have e1 : (u ++ "publishers/google/models/" ++ v).data
        = u.data ++ ("publishers/google/models/".data ++ v.data) := by
      show (u.data ++ "publishers/google/models/".data) ++ v.data = _
      rw [List.append_assoc]
    rw [e1, key]
    rfl
  show "`" ++ pyReplace (u ++ "publishers/google/models/" ++ v)
    "publishers/google/models/" "" ++ "`" = _
  rw [hr]

theorem model_name_removes_all_occurrences_witness :
    get_model_name ⟨"models/x-" ++ "publishers/google/models/" ++ "gemini"⟩
      = "`" ++ ("models/x-" ++ pyReplace "gemini" "publishers/google/models/" "") ++ "`" :=
  model_name_removes_all_occurrences "models/x-" "gemini" (by decide)
